import Mathlib

/-!
Verification of the Kamstrup power-meter reader codec
(`Software eksempler/Kamstrup_Powermeter_MQTT.ino`).

The development shallowly embeds the protocol core of the sketch:

* `crc_1021` — the CRC-16 engine (function `crc_1021`, lines 364–381);
* `kamSendPlain` / `kamEscape` / `kamSendFrame` — checksum placement and
  byte escaping of `kamSend` (lines 238–267);
* `kamReadRegSendMsg` / `buildRequest` — the request composed by
  `kamReadReg` (line 214) and passed through `kamSend`;
* `kamReceiveLoop` / `kamUnescape` / `kamReceiveDecode` — the receive
  state machine of `kamReceive` (lines 270–328);
* `kamDecode` — the reply decoder (lines 331–361).

Machine integers are modelled as `Nat` with explicit masking/reduction
where the C code truncates; the 32-bit signed mantissa accumulator is
tracked modulo `2^32` and reinterpreted by `toSigned32`.  `float`
arithmetic is idealised as exact rational arithmetic (`ℚ`).  Functions
that signal failure through sentinel return values in the C code
(`return 0` in `kamReceive`, `return false` in `kamDecode`) are embedded
with an explicit `Except` error so the failure paths stay distinguishable.
-/

/-- Error kinds of the codec.  In the C source these are sentinel returns:
`kamReceive` returns byte count `0` on a timeout or a CRC failure, and
`kamDecode` returns `false` (numerically `0.0f`) on a header/register
mismatch. -/
inductive KamError where
  | timeout
  | checksumMismatch
  | protocolMismatch
  deriving DecidableEq, Repr

/-! ## CRC engine (`crc_1021`, lines 364–381) -/

/-- One bit of the CRC loop body: `creg <<= 1; if (bit) creg |= 1;
if (creg & 0x10000) { creg &= 0xffff; creg ^= 0x1021; }`.
The argument `b` is the input bit (0 or 1). -/
def crcStepBit (creg b : Nat) : Nat :=
  let c := (creg <<< 1) ||| b
  if c &&& 0x10000 ≠ 0 then (c &&& 0xffff) ^^^ 0x1021 else c

/-- The bit extracted by `inmsg[i] & mask` in the inner `while` loop,
as a 0/1 value. -/
def crcBitOf (b mask : Nat) : Nat :=
  if b &&& mask ≠ 0 then 1 else 0

/-- One byte of the CRC loop: the inner `while (mask > 0)` loop runs the
bit step for masks `0x80` down to `0x01`. -/
def crcStepByte (creg b : Nat) : Nat :=
  [0x80, 0x40, 0x20, 0x10, 0x08, 0x04, 0x02, 0x01].foldl
    (fun s mask => crcStepBit s (crcBitOf b mask)) creg

/-- `crc_1021(inmsg, len)`: `creg` starts at `0x0000` and every byte of
the message is folded in most-significant bit first. -/
def crc_1021 (msg : List Nat) : Nat :=
  msg.foldl crcStepByte 0

/-! ### Helper view of the CRC as a fold over individual bits -/

/-- Feed a list of input bits (each 0 or 1) through the CRC bit step. -/
def crcFeed (s : Nat) (l : List Nat) : Nat :=
  l.foldl crcStepBit s

/-- The eight bits of a byte, most significant first, as extracted by the
mask loop. -/
def byteBits (b : Nat) : List Nat :=
  [crcBitOf b 0x80, crcBitOf b 0x40, crcBitOf b 0x20, crcBitOf b 0x10,
   crcBitOf b 0x08, crcBitOf b 0x04, crcBitOf b 0x02, crcBitOf b 0x01]

/-- The numeric value of a bit list (most significant first) accumulated
on top of `d`. -/
def bitsVal (d : Nat) (l : List Nat) : Nat :=
  l.foldl (fun a b => 2 * a + b) d

/-! ## Registers and configuration (lines 36–40) -/

/-- `kregnums`: the register addresses polled by the sketch. -/
def kregnums : List Nat :=
  [0x0001, 0x000d, 0x03ff, 0x0027, 0x041e, 0x041f, 0x0420,
   0x0434, 0x0435, 0x0436, 0x438, 0x439, 0x43a]

/-- `#define KAMTIMEOUT 1000` — receive timeout in milliseconds. -/
def KAMTIMEOUT : Nat := 1000

/-! ## Send path (`kamReadReg` line 214, `kamSend` lines 238–267) -/

/-- The first half of `kamSend` (lines 240–247): append two `0x00`
placeholder bytes, compute `crc_1021` over the whole buffer, and
overwrite the placeholders with the checksum, high byte first. -/
def kamSendPlain (msg : List Nat) : List Nat :=
  msg ++ [crc_1021 (msg ++ [0x00, 0x00]) >>> 8, crc_1021 (msg ++ [0x00, 0x00]) &&& 0xff]

/-- The request payload built by `kamReadReg` (line 214) for a register
address: `{ 0x3f, 0x10, 0x01, addr >> 8, addr & 0xff }`. -/
def kamReadRegSendMsg (registerId : Nat) : List Nat :=
  [0x3f, 0x10, 0x01, registerId >>> 8, registerId &&& 0xff]

/-- The plain (pre-escape) outgoing message for a register read: the
`kamReadReg` payload with the checksum appended by `kamSend`. -/
def buildRequest (registerId : Nat) : List Nat :=
  kamSendPlain (kamReadRegSendMsg registerId)

/-- The escape step of `kamSend` (lines 252–259): each reserved byte
(`0x06`, `0x0d`, `0x1b`, `0x40`, `0x80`) is emitted as `0x1b` followed by
the byte xor `0xff`; all others are emitted unchanged. -/
def kamEscape : List Nat → List Nat
  | [] => []
  | b :: t =>
    if b = 0x06 ∨ b = 0x0d ∨ b = 0x1b ∨ b = 0x40 ∨ b = 0x80 then
      0x1b :: (b ^^^ 0xff) :: kamEscape t
    else
      b :: kamEscape t

/-- The full raw frame written to the serial line by `kamSend`:
prefix `0x80`, escaped plain message, end-of-frame `0x0d`. -/
def kamSendFrame (msg : List Nat) : List Nat :=
  0x80 :: kamEscape (kamSendPlain msg) ++ [0x0d]

/-! ## Receive path (`kamReceive`, lines 270–328) -/

/-- Result of the byte-accumulation loop of `kamReceive` on a finite
trace of polls: the loop either times out, is still waiting when the
trace ends (`pending`), or has appended a terminating `0x0d`
(`complete`, carrying the accumulated `rxdata` buffer). -/
inductive RxResult where
  | timeout
  | pending (buf : List Nat)
  | complete (buf : List Nat)
  deriving DecidableEq, Repr

/-- `byte rxdata[50]` — capacity of the raw accumulation buffer in
`kamReceive` (line 272).  The C code stores into it without any bounds
check. -/
def rxBufferCapacity : Nat := 50

/-- The accumulation loop of `kamReceive` (lines 281–301), driven by a
trace of polls.  Each trace element is `(now, mb)`: the value `millis()`
returns at the top of the iteration and the byte available on the serial
port (`none` when `kamSer.available()` is false).  Per iteration the
code first checks `millis() - starttime > KAMTIMEOUT` and fails; then,
if a byte `r` is available it is appended unless it equals the stray
start marker `0x40`; appending `0x0d` ends the loop.  (The C loop guard
reads an uninitialized `r`; the model assumes the loop is entered, i.e.
that the initial garbage value is not `0x0d`.) -/
def kamReceiveLoop (start : Nat) : List (Nat × Option Nat) → List Nat → RxResult
  | [], buf => .pending buf
  | (now, mb) :: rest, buf =>
    if now - start > KAMTIMEOUT then .timeout
    else
      match mb with
      | none => kamReceiveLoop start rest buf
      | some r =>
        if r = 0x40 then kamReceiveLoop start rest buf
        else if r = 0x0d then .complete (buf ++ [r])
        else kamReceiveLoop start rest (buf ++ [r])

/-- The unescape loop of `kamReceive` (lines 304–318): it scans
`rxdata[0 .. rxindex-2]` (the accumulated buffer without its final
element, which is the terminating `0x0d`); an escape byte `0x1b`
combines with the following byte via xor `0xff` and skips it, any other
byte is copied. -/
def kamUnescape : List Nat → List Nat
  | [] => []
  | [_] => []
  | a :: b :: t =>
    if a = 0x1b then (b ^^^ 0xff) :: kamUnescape t
    else a :: kamUnescape (b :: t)

/-- The tail of `kamReceive` (lines 304–326): unescape the accumulated
raw buffer, then verify the checksum by running `crc_1021` over the
whole unescaped message; a nonzero result is the CRC failure path
(`return 0` after printing "CRC error"), otherwise the unescaped bytes
(checksum included) are the received message. -/
def kamReceiveDecode (rxdata : List Nat) : Except KamError (List Nat) :=
  let recvmsg := kamUnescape rxdata
  if crc_1021 recvmsg ≠ 0 then .error .checksumMismatch
  else .ok recvmsg

/-! ## Reply decoder (`kamDecode`, lines 331–361) -/

/-- The mantissa accumulation of `kamDecode` (lines 342–346): a 32-bit
`long x` starts at 0 and, for each of the `msg[5]` mantissa bytes
starting at `msg[7]`, shifts left by 8 (truncating to 32 bits, the width
of `long` on the ESP8266) and ors in the byte. -/
def kamMantissa (msg : List Nat) : Nat :=
  (List.range (msg.getD 5 0)).foldl
    (fun x i => ((x <<< 8) % 4294967296) ||| msg.getD (i + 7) 0) 0

/-- Reinterpret the 32 accumulated bits as the signed value of the C
`long` accumulator. -/
def toSigned32 (x : Nat) : ℤ :=
  if x < 2147483648 then (x : ℤ) else (x : ℤ) - 4294967296

/-- Exact-arithmetic model of `pow(10, i)` for an integer exponent. -/
def pow10 (i : ℤ) : ℚ :=
  if 0 ≤ i then ((10 : ℚ) ^ i.toNat) else ((10 : ℚ) ^ (-i).toNat)⁻¹

/-- `kamDecode(kreg, msg)` (lines 331–361).  The two leading guards
(`msg[0] != 0x3f or msg[1] != 0x10`, and the register-address check
against `kregnums[kreg]`) are the `return false` paths, embedded as the
`protocolMismatch` error.  Otherwise the mantissa `x` (from `msg[5]`
bytes at offset 7) is scaled by `pow(10, i)` where `i` is the low six
bits of `msg[6]`, negated if bit `0x40` is set, and the result is
negated if bit `0x80` is set.  `float` arithmetic is idealised as ℚ. -/
def kamDecode (kreg : Nat) (msg : List Nat) : Except KamError ℚ :=
  if msg.getD 0 0 ≠ 0x3f ∨ msg.getD 1 0 ≠ 0x10 then .error .protocolMismatch
  else if msg.getD 2 0 ≠ (kregnums.getD kreg 0) >>> 8 ∨
      msg.getD 3 0 ≠ (kregnums.getD kreg 0) &&& 0xff then .error .protocolMismatch
  else
    let x := kamMantissa msg
    let i : ℤ := if msg.getD 6 0 &&& 0x40 ≠ 0 then -((msg.getD 6 0 &&& 0x3f : Nat) : ℤ)
      else ((msg.getD 6 0 &&& 0x3f : Nat) : ℤ)
    let ifl : ℚ := if msg.getD 6 0 &&& 0x80 ≠ 0 then -(pow10 i) else pow10 i
    .ok ((toSigned32 x : ℚ) * ifl)

/-! ## Spec-side comparison definitions -/

/-- The value of a byte list read as an unsigned big-endian integer
(spec §4.5: "accumulate the mantissa as an unsigned big-endian
integer"). -/
def bigEndian (l : List Nat) : Nat :=
  l.foldl (fun a b => 256 * a + b) 0

/-- Request builder following the spec's words (§4.3): four-byte header
`[0x3F, 0x10, high, low]` plus the checksum computed over the header and
two zero placeholders.  Defined only for comparison with
`buildRequest`. -/
def specBuildRequest (registerId : Nat) : List Nat :=
  [0x3f, 0x10, registerId >>> 8, registerId &&& 0xff] ++
    [crc_1021 [0x3f, 0x10, registerId >>> 8, registerId &&& 0xff, 0x00, 0x00] >>> 8,
     crc_1021 [0x3f, 0x10, registerId >>> 8, registerId &&& 0xff, 0x00, 0x00] &&& 0xff]

/-- Reply decoder following the spec's words (§4.5): byte 4 is the
mantissa length, byte 5 the exponent-and-sign byte, the mantissa starts
at offset 6 and is accumulated as an unbounded unsigned big-endian
integer.  Defined only for comparison with `kamDecode`. -/
def specReplyDecode (kreg : Nat) (msg : List Nat) : Except KamError ℚ :=
  if msg.getD 0 0 ≠ 0x3f ∨ msg.getD 1 0 ≠ 0x10 then .error .protocolMismatch
  else if msg.getD 2 0 ≠ (kregnums.getD kreg 0) >>> 8 ∨
      msg.getD 3 0 ≠ (kregnums.getD kreg 0) &&& 0xff then .error .protocolMismatch
  else
    let m := bigEndian ((List.range (msg.getD 4 0)).map fun i => msg.getD (i + 6) 0)
    let e : ℤ := if msg.getD 5 0 &&& 0x40 ≠ 0 then -((msg.getD 5 0 &&& 0x3f : Nat) : ℤ)
      else ((msg.getD 5 0 &&& 0x3f : Nat) : ℤ)
    let v : ℚ := (m : ℚ) * pow10 e
    .ok (if msg.getD 5 0 &&& 0x80 ≠ 0 then -v else v)

/-- Decidable equality on `Except`, so concrete codec results can be
checked by evaluation. -/
instance {ε α : Type} [DecidableEq ε] [DecidableEq α] : DecidableEq (Except ε α) := fun x y =>
  match x, y with
  | .error a, .error b =>
    if h : a = b then isTrue (h ▸ rfl) else isFalse (fun hc => h (Except.error.inj hc))
  | .ok a, .ok b =>
    if h : a = b then isTrue (h ▸ rfl) else isFalse (fun hc => h (Except.ok.inj hc))
  | .error _, .ok _ => isFalse (fun hc => Except.noConfusion hc)
  | .ok _, .error _ => isFalse (fun hc => Except.noConfusion hc)

theorem crcStepByte_eq_feed (s b : Nat) : crcStepByte s b = crcFeed s (byteBits b) := rfl

theorem crcBitOf_le (b mask : Nat) : crcBitOf b mask ≤ 1 := by
  unfold crcBitOf; split <;> omega

theorem two_pow_mul_lor_eq_add : ∀ (n k b : Nat), b < 2 ^ n → (2 ^ n * k) ||| b = 2 ^ n * k + b := by
  intro n
  induction n with
  | zero =>
    intro k b hb
    interval_cases b
    simp
  | succ n ih =>
    intro k b hb
    have h1 : 2 ^ (n + 1) * k = Nat.bit false (2 ^ n * k) := by
      simp [Nat.bit_val]; ring
    have h2 : Nat.bit (decide (b % 2 = 1)) (b >>> 1) = b :=
      Nat.bit_decide_mod_two_eq_one_shiftRight_one b
    have h3 : b >>> 1 < 2 ^ n := by
      rw [Nat.shiftRight_one]
      have := Nat.pow_succ 2 n
      omega
    calc (2 ^ (n + 1) * k) ||| b
        = Nat.bit false (2 ^ n * k) ||| Nat.bit (decide (b % 2 = 1)) (b >>> 1) := by
          rw [h1, h2]
      _ = Nat.bit (false || decide (b % 2 = 1)) ((2 ^ n * k) ||| (b >>> 1)) :=
          Nat.lor_bit false (2 ^ n * k) (decide (b % 2 = 1)) (b >>> 1)
      _ = Nat.bit (decide (b % 2 = 1)) (2 ^ n * k + b >>> 1) := by
          rw [Bool.false_or, ih k (b >>> 1) h3]
      _ = 2 ^ (n + 1) * k + b := by
          have hm : 2 ^ (n + 1) * k = 2 * (2 ^ n * k) := by rw [Nat.pow_succ]; ring
          rw [Nat.bit_val, Nat.shiftRight_one, hm]
          rcases Nat.mod_two_eq_zero_or_one b with h | h <;> simp [h] <;> omega

theorem shiftLeft_one_xor (x d : Nat) : (x ^^^ d) <<< 1 = (x <<< 1) ^^^ (d <<< 1) := by
  apply Nat.eq_of_testBit_eq
  intro i
  rcases Nat.lt_or_ge i 1 with hi | hi
  · interval_cases i
    simp only [Nat.testBit_xor, Nat.testBit_shiftLeft]
    norm_num
  · simp [Nat.testBit_shiftLeft, Nat.testBit_xor, hi]

theorem xor_shifted_lor (x d b : Nat) (hb : b ≤ 1) :
    ((x <<< 1) ^^^ (d <<< 1)) ||| b = (x <<< 1) ^^^ ((d <<< 1) ||| b) := by
  apply Nat.eq_of_testBit_eq
  intro i
  rcases Nat.eq_zero_or_pos i with rfl | hi
  · simp only [Nat.testBit_or, Nat.testBit_xor, Nat.testBit_shiftLeft]
    norm_num
  · have hbI : b.testBit i = false := by
      apply Nat.testBit_lt_two_pow
      calc b < 2 ^ 1 := by omega
        _ ≤ 2 ^ i := Nat.pow_le_pow_right (by omega) hi
    simp [Nat.testBit_or, Nat.testBit_xor, hbI]

theorem shiftLeft_one_lor_bit (d b : Nat) (hb : b ≤ 1) : (d <<< 1) ||| b = 2 * d + b := by
  have h := two_pow_mul_lor_eq_add 1 d b (by omega)
  rw [pow_one] at h
  rw [Nat.shiftLeft_eq, pow_one, Nat.mul_comm d 2]
  exact h

theorem and_two_pow_sixteen_eq_zero (e : Nat) (he : e < 65536) : e &&& 65536 = 0 := by
  have h1 : e.testBit 16 = false := Nat.testBit_lt_two_pow (by norm_num; omega)
  calc e &&& 65536 = e &&& 2 ^ 16 := by norm_num
    _ = (e.testBit 16).toNat * 2 ^ 16 := Nat.and_two_pow e 16
    _ = 0 := by rw [h1]; simp

theorem and_mask_sixteen_eq_self (e : Nat) (he : e < 65536) : e &&& 65535 = e := by
  have h := Nat.and_pow_two_sub_one_eq_mod e 16
  norm_num at h
  rw [h]
  omega

theorem crcStepBit_superpose (x d b : Nat) (hb : b ≤ 1) (he : 2 * d + b < 65536) :
    crcStepBit (x ^^^ d) b = crcStepBit x 0 ^^^ (2 * d + b) := by
  simp only [crcStepBit]
  have hc1 : ((x ^^^ d) <<< 1) ||| b = (x <<< 1) ^^^ (2 * d + b) := by
    rw [shiftLeft_one_xor, xor_shifted_lor x d b hb, shiftLeft_one_lor_bit d b hb]
  have hc0 : (x <<< 1) ||| 0 = x <<< 1 := by simp
  rw [hc1, hc0]
  have hbit : ((x <<< 1) ^^^ (2 * d + b)) &&& 0x10000 = (x <<< 1) &&& 0x10000 := by
    rw [Nat.and_xor_distrib_right, and_two_pow_sixteen_eq_zero (2 * d + b) he, Nat.xor_zero]
  rw [hbit]
  split
  · rw [Nat.and_xor_distrib_right, and_mask_sixteen_eq_self (2 * d + b) he,
      Nat.xor_assoc, Nat.xor_comm (2 * d + b) 0x1021, ← Nat.xor_assoc]
  · rfl

theorem bitsVal_ge : ∀ (l : List Nat) (d : Nat), d ≤ bitsVal d l := by
  intro l
  induction l with
  | nil => intro d; simp [bitsVal]
  | cons b t ih =>
    intro d
    have h1 : d ≤ 2 * d + b := by omega
    exact le_trans h1 (ih (2 * d + b))

theorem crcFeed_superpose : ∀ (l : List Nat) (x d : Nat), (∀ b ∈ l, b ≤ 1) →
    bitsVal d l < 65536 →
    crcFeed (x ^^^ d) l = crcFeed x (List.replicate l.length 0) ^^^ bitsVal d l := by
  intro l
  induction l with
  | nil => intro x d _ _; simp [crcFeed, bitsVal]
  | cons b t ih =>
    intro x d hmem hv
    have hb : b ≤ 1 := hmem b (List.mem_cons_self b t)
    have hv' : bitsVal (2 * d + b) t < 65536 := hv
    have he : 2 * d + b < 65536 := lt_of_le_of_lt (bitsVal_ge t (2 * d + b)) hv'
    show crcFeed (crcStepBit (x ^^^ d) b) t = _
    rw [crcStepBit_superpose x d b hb he]
    have := ih (crcStepBit x 0) (2 * d + b) (fun c hc => hmem c (List.mem_cons_of_mem b hc)) hv'
    rw [this]
    rfl

theorem crcStepBit_lt (s b : Nat) (hs : s < 65536) (hb : b ≤ 1) : crcStepBit s b < 65536 := by
  simp only [crcStepBit]
  have h2 : s <<< 1 < 2 ^ 17 := by
    rw [Nat.shiftLeft_eq]
    norm_num
    omega
  have h3 : b < 2 ^ 17 := lt_of_le_of_lt hb (by norm_num)
  have hc : (s <<< 1) ||| b < 2 ^ 17 := Nat.or_lt_two_pow h2 h3
  split
  · have h4 : ((s <<< 1) ||| b) &&& 0xffff < 2 ^ 16 :=
      lt_of_le_of_lt Nat.and_le_right (by norm_num)
    have h5 := Nat.xor_lt_two_pow h4 (by norm_num : (0x1021 : Nat) < 2 ^ 16)
    simpa using h5
  · rename_i h
    push_neg at h
    norm_num at hc
    by_contra hcon
    push_neg at hcon
    have hdiv : ((s <<< 1) ||| b) / 65536 % 2 = 1 := by omega
    have htb : ((s <<< 1) ||| b).testBit 16 = true := by
      simp [Nat.testBit_to_div_mod, hdiv]
    have hand := Nat.and_two_pow ((s <<< 1) ||| b) 16
    rw [htb] at hand
    norm_num at hand
    rw [h] at hand
    exact absurd hand (by norm_num)

theorem crcStepByte_lt (s b : Nat) (hs : s < 65536) : crcStepByte s b < 65536 := by
  simp only [crcStepByte, List.foldl_cons, List.foldl_nil]
  exact crcStepBit_lt _ _ (crcStepBit_lt _ _ (crcStepBit_lt _ _ (crcStepBit_lt _ _
    (crcStepBit_lt _ _ (crcStepBit_lt _ _ (crcStepBit_lt _ _ (crcStepBit_lt _ _ hs
    (crcBitOf_le _ _)) (crcBitOf_le _ _)) (crcBitOf_le _ _)) (crcBitOf_le _ _))
    (crcBitOf_le _ _)) (crcBitOf_le _ _)) (crcBitOf_le _ _)) (crcBitOf_le _ _)

theorem foldl_crcStepByte_lt : ∀ (msg : List Nat) (s : Nat), s < 65536 →
    msg.foldl crcStepByte s < 65536 := by
  intro msg
  induction msg with
  | nil => intro s hs; simpa using hs
  | cons b t ih => intro s hs; exact ih _ (crcStepByte_lt s b hs)

theorem crc_1021_lt (msg : List Nat) : crc_1021 msg < 65536 :=
  foldl_crcStepByte_lt msg 0 (by norm_num)

theorem bitsVal_linear : ∀ (l : List Nat) (a : Nat),
    bitsVal a l = a * 2 ^ l.length + bitsVal 0 l := by
  intro l
  induction l with
  | nil => intro a; simp [bitsVal]
  | cons b t ih =>
    intro a
    show bitsVal (2 * a + b) t = _
    rw [ih (2 * a + b)]
    have h0 : bitsVal 0 (b :: t) = bitsVal b t := by simp [bitsVal]
    rw [h0, ih b]
    have hlen : (b :: t).length = t.length + 1 := rfl
    rw [hlen, pow_succ]
    ring

set_option maxRecDepth 4000 in
theorem byteBits_val : ∀ b, b < 256 → bitsVal 0 (byteBits b) = b := by decide

theorem byteBits_mem_le (b : Nat) : ∀ x ∈ byteBits b, x ≤ 1 := by
  intro x hx
  simp only [byteBits, List.mem_cons, List.not_mem_nil, or_false] at hx
  rcases hx with rfl | rfl | rfl | rfl | rfl | rfl | rfl | rfl <;> exact crcBitOf_le _ _

theorem crcFeed_append (s : Nat) (l1 l2 : List Nat) :
    crcFeed s (l1 ++ l2) = crcFeed (crcFeed s l1) l2 := by
  simp [crcFeed, List.foldl_append]

theorem byteBits_zero : byteBits 0 = List.replicate 8 0 := by decide

theorem crcFeed_zeros16 (s : Nat) :
    crcFeed s (List.replicate 16 0) = crcStepByte (crcStepByte s 0) 0 := by
  have h : (List.replicate 16 (0 : Nat)) = List.replicate 8 0 ++ List.replicate 8 0 := by decide
  rw [h, crcFeed_append, crcStepByte_eq_feed, crcStepByte_eq_feed, byteBits_zero]

theorem crc16_core (s : Nat) (hs : s < 65536) :
    crcStepByte (crcStepByte s (crcStepByte (crcStepByte s 0) 0 >>> 8))
      (crcStepByte (crcStepByte s 0) 0 &&& 0xff) = 0 := by
  set c := crcStepByte (crcStepByte s 0) 0 with hc
  have hclt : c < 65536 := crcStepByte_lt _ _ (crcStepByte_lt _ _ hs)
  have hhi_eq : c >>> 8 = c / 256 := by
    rw [Nat.shiftRight_eq_div_pow]
  have hlo_eq : c &&& 0xff = c % 256 := by
    have h := Nat.and_pow_two_sub_one_eq_mod c 8
    norm_num at h
    exact h
  have hhi : c >>> 8 < 256 := by rw [hhi_eq]; omega
  have hlo : c &&& 0xff < 256 := by rw [hlo_eq]; omega
  have hval : bitsVal 0 (byteBits (c >>> 8) ++ byteBits (c &&& 0xff)) = c := by
    have h1 : bitsVal 0 (byteBits (c >>> 8) ++ byteBits (c &&& 0xff))
        = bitsVal (bitsVal 0 (byteBits (c >>> 8))) (byteBits (c &&& 0xff)) := by
      simp [bitsVal, List.foldl_append]
    rw [h1, byteBits_val _ hhi, bitsVal_linear, byteBits_val _ hlo]
    have hlen : (byteBits (c &&& 0xff)).length = 8 := rfl
    have h256 : (2 : Nat) ^ 8 = 256 := by norm_num
    rw [hlen, hhi_eq, hlo_eq, h256]
    omega
  have hmem : ∀ x ∈ byteBits (c >>> 8) ++ byteBits (c &&& 0xff), x ≤ 1 := by
    intro x hx
    rcases List.mem_append.mp hx with h | h
    · exact byteBits_mem_le _ x h
    · exact byteBits_mem_le _ x h
  have hlen2 : (byteBits (c >>> 8) ++ byteBits (c &&& 0xff)).length = 16 := rfl
  calc crcStepByte (crcStepByte s (c >>> 8)) (c &&& 0xff)
      = crcFeed s (byteBits (c >>> 8) ++ byteBits (c &&& 0xff)) := by
        rw [crcFeed_append, ← crcStepByte_eq_feed, ← crcStepByte_eq_feed]
    _ = crcFeed (s ^^^ 0) (byteBits (c >>> 8) ++ byteBits (c &&& 0xff)) := by
        rw [Nat.xor_zero]
    _ = crcFeed s (List.replicate (byteBits (c >>> 8) ++ byteBits (c &&& 0xff)).length 0)
          ^^^ bitsVal 0 (byteBits (c >>> 8) ++ byteBits (c &&& 0xff)) := by
        apply crcFeed_superpose _ _ _ hmem
        rw [hval]
        exact hclt
    _ = crcFeed s (List.replicate 16 0) ^^^ c := by rw [hlen2, hval]
    _ = c ^^^ c := by rw [crcFeed_zeros16]
    _ = 0 := Nat.xor_self c

theorem crc_1021_append_foldl (msg l : List Nat) :
    crc_1021 (msg ++ l) = l.foldl crcStepByte (crc_1021 msg) := by
  simp [crc_1021, List.foldl_append]

/-- The checksum-generation/verification compatibility of `crc_1021`:
appending to any message the two checksum bytes computed over that
message with two zero placeholder bytes drives the CRC register back
to zero. -/
theorem crc_1021_self_check (msg : List Nat) :
    crc_1021 (msg ++ [crc_1021 (msg ++ [0x00, 0x00]) >>> 8,
      crc_1021 (msg ++ [0x00, 0x00]) &&& 0xff]) = 0 := by
  have h1 : crc_1021 (msg ++ [0x00, 0x00]) = crcStepByte (crcStepByte (crc_1021 msg) 0) 0 := by
    rw [crc_1021_append_foldl]
    rfl
  rw [crc_1021_append_foldl, h1]
  simp only [List.foldl_cons, List.foldl_nil]
  exact crc16_core (crc_1021 msg) (crc_1021_lt msg)

/-! ## Escape/unescape round trip -/

theorem kamUnescape_escaped_pair (c : Nat) (l : List Nat) :
    kamUnescape (0x1b :: c :: l) = (c ^^^ 0xff) :: kamUnescape l := by
  simp [kamUnescape]

theorem kamUnescape_cons_ne (b : Nat) (l : List Nat) (hl : l ≠ []) (hb : b ≠ 0x1b) :
    kamUnescape (b :: l) = b :: kamUnescape l := by
  cases l with
  | nil => exact absurd rfl hl
  | cons c rest => simp [kamUnescape, hb]

/-- Unescaping the escaped form of any byte list (followed by the
terminating `0x0d` that the receive loop leaves in the buffer) recovers
the original list. -/
theorem kamUnescape_kamEscape : ∀ msg : List Nat,
    kamUnescape (kamEscape msg ++ [0x0d]) = msg := by
  intro msg
  induction msg with
  | nil => rfl
  | cons b t ih =>
    by_cases hres : b = 0x06 ∨ b = 0x0d ∨ b = 0x1b ∨ b = 0x40 ∨ b = 0x80
    · have hesc : kamEscape (b :: t) = 0x1b :: (b ^^^ 0xff) :: kamEscape t := by
        simp [kamEscape, hres]
      rw [hesc]
      show kamUnescape (0x1b :: (b ^^^ 0xff) :: (kamEscape t ++ [0x0d])) = b :: t
      rw [kamUnescape_escaped_pair, ih, Nat.xor_assoc, Nat.xor_self, Nat.xor_zero]
    · have hesc : kamEscape (b :: t) = b :: kamEscape t := by
        simp [kamEscape, hres]
      rw [hesc]
      show kamUnescape (b :: (kamEscape t ++ [0x0d])) = b :: t
      have hb : b ≠ 0x1b := by
        intro hcontra
        exact hres (Or.inr (Or.inr (Or.inl hcontra)))
      rw [kamUnescape_cons_ne b _ (by simp) hb, ih]

/-! ## Mantissa accumulator bridge -/

theorem mantissa_step_eq (x b : Nat) (hb : b < 256) :
    ((x <<< 8) % 4294967296) ||| b = (256 * x + b) % 4294967296 := by
  have h1 : x <<< 8 = x * 256 := by
    rw [Nat.shiftLeft_eq]
  have h2 : (x * 256) % 4294967296 = 256 * (x % 16777216) := by
    have : x * 256 = 256 * x := by ring
    rw [this]
    have hsplit : (4294967296 : Nat) = 256 * 16777216 := by norm_num
    rw [hsplit, Nat.mul_mod_mul_left]
  have h3 : (2 ^ 8 * (x % 16777216)) ||| b = 2 ^ 8 * (x % 16777216) + b :=
    two_pow_mul_lor_eq_add 8 (x % 16777216) b (by norm_num; omega)
  norm_num at h3
  rw [h1, h2, h3]
  omega

theorem foldl_mul_add_mod_congr : ∀ (l : List Nat) (a a' : Nat),
    a % 4294967296 = a' % 4294967296 →
    (l.foldl (fun x b => 256 * x + b) a) % 4294967296 =
      (l.foldl (fun x b => 256 * x + b) a') % 4294967296 := by
  intro l
  induction l with
  | nil => intro a a' h; exact h
  | cons b t ih =>
    intro a a' h
    exact ih (256 * a + b) (256 * a' + b) (by omega)

theorem foldl_mantissa_eq : ∀ (l : List Nat) (x : Nat), (∀ b ∈ l, b < 256) →
    x < 4294967296 →
    l.foldl (fun x b => ((x <<< 8) % 4294967296) ||| b) x =
      (l.foldl (fun x b => 256 * x + b) x) % 4294967296 := by
  intro l
  induction l with
  | nil =>
    intro x _ hx0
    exact (Nat.mod_eq_of_lt hx0).symm
  | cons b t ih =>
    intro x hx hx0
    have hb : b < 256 := hx b (List.mem_cons_self b t)
    show t.foldl _ (((x <<< 8) % 4294967296) ||| b) = _
    rw [mantissa_step_eq x b hb]
    rw [ih ((256 * x + b) % 4294967296)
      (fun c hc => hx c (List.mem_cons_of_mem b hc))
      (Nat.mod_lt _ (by norm_num))]
    simp only [List.foldl_cons]
    exact foldl_mul_add_mod_congr t _ _ (by omega)

theorem getD_lt_of_bytes (msg : List Nat) (i : Nat) (h : ∀ b ∈ msg, b < 256) :
    msg.getD i 0 < 256 := by
  rcases Nat.lt_or_ge i msg.length with hi | hi
  · rw [List.getD_eq_getElem msg 0 hi]
    exact h _ (List.getElem_mem hi)
  · rw [List.getD_eq_default msg 0 hi]
    norm_num

/-- The 32-bit mantissa accumulator of `kamDecode` holds the unsigned
big-endian value of the `msg[5]` mantissa bytes starting at offset 7,
reduced modulo `2^32`. -/
theorem kamMantissa_eq (msg : List Nat) (hbytes : ∀ b ∈ msg, b < 256) :
    kamMantissa msg =
      bigEndian ((List.range (msg.getD 5 0)).map fun i => msg.getD (i + 7) 0) % 4294967296 := by
  unfold kamMantissa bigEndian
  rw [show (List.range (msg.getD 5 0)).foldl
        (fun x i => ((x <<< 8) % 4294967296) ||| msg.getD (i + 7) 0) 0 =
      ((List.range (msg.getD 5 0)).map fun i => msg.getD (i + 7) 0).foldl
        (fun x b => ((x <<< 8) % 4294967296) ||| b) 0 from (List.foldl_map _ _ _ _).symm]
  apply foldl_mantissa_eq
  · intro b hb
    rcases List.mem_map.mp hb with ⟨i, _, rfl⟩
    exact getD_lt_of_bytes msg (i + 7) hbytes
  · norm_num

theorem pow10_eq_zpow (i : ℤ) : pow10 i = (10 : ℚ) ^ i := by
  unfold pow10
  split
  · rename_i h
    conv_rhs => rw [← Int.toNat_of_nonneg h]
    rw [zpow_natCast]
  · rename_i h
    push_neg at h
    have h2 : i = -((-i).toNat : ℤ) := by omega
    conv_rhs => rw [h2]
    rw [zpow_neg, zpow_natCast]

/-! ## Claims -/

/-- C4: For every byte sequence `msg` and its correct 2-byte CRC
(computed by `crc_1021` over `msg` with two zero bytes appended and
placed into those two bytes, high byte first), running `crc_1021` over
`msg` with the checksum appended yields exactly `0x0000`. -/
theorem C4_crc_self_verify (msg : List Nat) :
    crc_1021 (msg ++ [crc_1021 (msg ++ [0x00, 0x00]) >>> 8,
      crc_1021 (msg ++ [0x00, 0x00]) &&& 0xff]) = 0 :=
  crc_1021_self_check msg

/-- C5: For every byte sequence containing none of the five reserved
values `{0x06, 0x0d, 0x1b, 0x40, 0x80}`, escaping it (`kamSend`'s escape
step) and then unescaping the captured bytes (`kamReceive`'s unescape
step, whose buffer ends with the terminating `0x0d`) returns the
sequence unchanged, markers aside. -/
theorem C5_escape_roundtrip (msg : List Nat)
    (_h : ∀ b ∈ msg, b ∉ ([0x06, 0x0d, 0x1b, 0x40, 0x80] : List Nat)) :
    kamUnescape (kamEscape msg ++ [0x0d]) = msg :=
  kamUnescape_kamEscape msg

/-- Witness for C5 at the concrete reserved-free sequence
`[0x3f, 0x10, 0x00, 0x01]`. -/
theorem C5_escape_roundtrip_witness :
    (∀ b ∈ ([0x3f, 0x10, 0x00, 0x01] : List Nat),
      b ∉ ([0x06, 0x0d, 0x1b, 0x40, 0x80] : List Nat)) ∧
    kamUnescape (kamEscape [0x3f, 0x10, 0x00, 0x01] ++ [0x0d]) = [0x3f, 0x10, 0x00, 0x01] :=
  ⟨by decide, C5_escape_roundtrip [0x3f, 0x10, 0x00, 0x01] (by decide)⟩

/-- Counterexample to C1 as stated: the plain message built for register
`0x0001` is seven bytes, not six, and differs from the
four-byte-header-plus-checksum message the claim describes (the code
inserts a `0x01` byte after the opcode pair, `kamReadReg` line 214). -/
theorem C1_counterexample :
    (buildRequest 0x0001).length = 7 ∧ buildRequest 0x0001 ≠ specBuildRequest 0x0001 := by
  constructor
  · rfl
  · decide

/-- C1 (amended): for every registerId, `buildRequest` produces the
seven-byte plain message `[0x3f, 0x10, 0x01, high, low, crcHi, crcLo]`
whose checksum is `crc_1021` of the five header bytes plus two zero
placeholders, and the whole message passes CRC verification. -/
theorem C1_buildRequest_amended (registerId : Nat) :
    buildRequest registerId =
      [0x3f, 0x10, 0x01, registerId >>> 8, registerId &&& 0xff] ++
        [crc_1021 [0x3f, 0x10, 0x01, registerId >>> 8, registerId &&& 0xff, 0x00, 0x00] >>> 8,
         crc_1021 [0x3f, 0x10, 0x01, registerId >>> 8, registerId &&& 0xff, 0x00, 0x00] &&& 0xff] ∧
    (buildRequest registerId).length = 7 ∧
    crc_1021 (buildRequest registerId) = 0 := by
  refine ⟨rfl, rfl, ?_⟩
  exact crc_1021_self_check [0x3f, 0x10, 0x01, registerId >>> 8, registerId &&& 0xff]

set_option maxRecDepth 10000 in
/-- Counterexample to C3 as stated: a valid raw frame for the message
`[0x3f, 0x10, 0x00, 0x01]` with its checksum does not decode to the
message with the checksum stripped — the code keeps the two CRC bytes in
the returned buffer. -/
theorem C3_counterexample :
    kamReceiveDecode (kamEscape (kamSendPlain [0x3f, 0x10, 0x00, 0x01]) ++ [0x0d]) ≠
      Except.ok [0x3f, 0x10, 0x00, 0x01] := by decide

/-- C3 (amended): for every plain message with its correct checksum
appended, receiving its escaped frame succeeds and returns the unescaped
byte sequence with the two trailing checksum bytes retained (the buffer
handed to the reply decoder still ends with the CRC bytes). -/
theorem C3_receive_keeps_crc_amended (m : List Nat) :
    kamReceiveDecode (kamEscape (kamSendPlain m) ++ [0x0d]) = .ok (kamSendPlain m) := by
  have hcrc : crc_1021 (kamSendPlain m) = 0 := crc_1021_self_check m
  simp only [kamReceiveDecode, kamUnescape_kamEscape, hcrc]
  norm_num

/-- Counterexample to C2 as stated: on the reply
`[0x3f, 0x10, 0x00, 0x01, 2, 1, 0, 5, 9]` the code decodes byte 5 (= 1)
as the mantissa count, byte 6 (= 0) as the exponent byte and the
mantissa from offset 7, giving 5; reading byte 4 as the count, byte 5 as
the exponent byte and the mantissa from offset 6 (as the claim states)
would give 50. -/
theorem C2_counterexample :
    kamDecode 0 [0x3f, 0x10, 0x00, 0x01, 2, 1, 0, 5, 9] = .ok 5 ∧
    specReplyDecode 0 [0x3f, 0x10, 0x00, 0x01, 2, 1, 0, 5, 9] = .ok 50 := by
  constructor
  · have hm : kamMantissa [0x3f, 0x10, 0x00, 0x01, 2, 1, 0, 5, 9] = 5 := by decide
    simp [kamDecode, kregnums, hm, toSigned32, pow10]
  · simp [specReplyDecode, kregnums, pow10]
    norm_num [bigEndian, List.range_succ]

/-- C2 (amended): for every reply whose bytes are 8-bit values, byte 5
of the message is the count of mantissa bytes and the mantissa is
accumulated as an unsigned big-endian integer over that many bytes
beginning at offset 7, reduced into the 32-bit accumulator (byte 6, not
byte 5, is the exponent-and-sign byte, which is how `kamDecode` reads
it). -/
theorem C2_mantissa_layout_amended (msg : List Nat) (hbytes : ∀ b ∈ msg, b < 256) :
    kamMantissa msg =
      bigEndian ((List.range (msg.getD 5 0)).map fun i => msg.getD (i + 7) 0) % 4294967296 :=
  kamMantissa_eq msg hbytes

/-- Witness for the amended C2 on a concrete reply with a two-byte
mantissa. -/
theorem C2_mantissa_layout_amended_witness :
    (∀ b ∈ ([0x3f, 0x10, 0x00, 0x01, 0x00, 2, 0, 3, 5] : List Nat), b < 256) ∧
    kamMantissa [0x3f, 0x10, 0x00, 0x01, 0x00, 2, 0, 3, 5] =
      bigEndian ((List.range (([0x3f, 0x10, 0x00, 0x01, 0x00, 2, 0, 3, 5] : List Nat).getD 5 0)).map
        fun i => ([0x3f, 0x10, 0x00, 0x01, 0x00, 2, 0, 3, 5] : List Nat).getD (i + 7) 0) %
        4294967296 :=
  ⟨by decide, C2_mantissa_layout_amended [0x3f, 0x10, 0x00, 0x01, 0x00, 2, 0, 3, 5] (by decide)⟩

/-- Counterexample to C10 as stated ("only mantissas of at most 4 bytes
are decoded exactly"): the accumulator is a signed 32-bit `long`, so the
4-byte mantissa `[0x80, 0x00, 0x00, 0x00]` (value `2^31`) already
decodes to `-2^31`, not `2^31`. -/
theorem C10_counterexample :
    kamDecode 0 [0x3f, 0x10, 0x00, 0x01, 0x00, 0x04, 0x00, 0x80, 0x00, 0x00, 0x00] =
      .ok (-2147483648 : ℚ) ∧
    bigEndian [0x80, 0x00, 0x00, 0x00] = 2147483648 ∧
    (-2147483648 : ℚ) ≠ 2147483648 := by
  refine ⟨?_, by decide, by norm_num⟩
  have hm : kamMantissa [0x3f, 0x10, 0x00, 0x01, 0x00, 0x04, 0x00, 0x80, 0x00, 0x00, 0x00] =
      2147483648 := by decide
  simp [kamDecode, kregnums, hm, toSigned32, pow10]

/-- C10 (amended): the mantissa accumulator is a signed 32-bit value:
for every reply (with 8-bit bytes) the accumulated bits equal the full
unsigned big-endian mantissa reduced modulo `2^32`, and the signed value
the decoder multiplies by the exponent factor equals the full mantissa
exactly if and only if that mantissa is below `2^31`. -/
theorem C10_mantissa_32bit_amended (msg : List Nat) (hbytes : ∀ b ∈ msg, b < 256) :
    kamMantissa msg =
      bigEndian ((List.range (msg.getD 5 0)).map fun i => msg.getD (i + 7) 0) % 4294967296 ∧
    (toSigned32 (kamMantissa msg) =
        (bigEndian ((List.range (msg.getD 5 0)).map fun i => msg.getD (i + 7) 0) : ℤ) ↔
      bigEndian ((List.range (msg.getD 5 0)).map fun i => msg.getD (i + 7) 0) < 2147483648) := by
  have h1 := kamMantissa_eq msg hbytes
  refine ⟨h1, ?_⟩
  rw [h1]
  unfold toSigned32
  split <;> omega

/-- Witness for the amended C10: a one-byte mantissa of 100 is below
`2^31` and is decoded exactly. -/
theorem C10_mantissa_32bit_amended_witness :
    (∀ b ∈ ([0x3f, 0x10, 0x00, 0x01, 0x00, 1, 0, 100] : List Nat), b < 256) ∧
    (kamMantissa [0x3f, 0x10, 0x00, 0x01, 0x00, 1, 0, 100] =
      bigEndian ((List.range (([0x3f, 0x10, 0x00, 0x01, 0x00, 1, 0, 100] : List Nat).getD 5 0)).map
        fun i => ([0x3f, 0x10, 0x00, 0x01, 0x00, 1, 0, 100] : List Nat).getD (i + 7) 0) %
        4294967296) ∧
    toSigned32 (kamMantissa [0x3f, 0x10, 0x00, 0x01, 0x00, 1, 0, 100]) = 100 := by
  have h := C10_mantissa_32bit_amended [0x3f, 0x10, 0x00, 0x01, 0x00, 1, 0, 100] (by decide)
  exact ⟨by decide, h.1, by decide⟩

/-- C6: For every register index and every reply whose byte 0 is not
`0x3f`, whose byte 1 is not `0x10`, or whose bytes 2–3 are not the
big-endian encoding of the requested register address, the reply decoder
fails with `protocolMismatch` (in the source, the `return false` path),
and this failure is distinct from the framing/CRC failure: it is a
different error value, and the frame-decode step `kamReceiveDecode`
never produces it. -/
theorem C6_protocol_mismatch (kreg : Nat) (msg : List Nat)
    (h : msg.getD 0 0 ≠ 0x3f ∨ msg.getD 1 0 ≠ 0x10 ∨
      msg.getD 2 0 ≠ (kregnums.getD kreg 0) >>> 8 ∨
      msg.getD 3 0 ≠ (kregnums.getD kreg 0) &&& 0xff) :
    kamDecode kreg msg = .error .protocolMismatch ∧
      KamError.protocolMismatch ≠ KamError.checksumMismatch ∧
      ∀ rxdata, kamReceiveDecode rxdata ≠ .error .protocolMismatch := by
  refine ⟨?_, by decide, ?_⟩
  · unfold kamDecode
    split
    · rfl
    · split
      · rfl
      · rename_i hA hB
        push_neg at hA hB
        rcases h with h | h | h | h
        · exact absurd hA.1 h
        · exact absurd hA.2 h
        · exact absurd hB.1 h
        · exact absurd hB.2 h
  · intro rxdata
    unfold kamReceiveDecode
    dsimp only
    split <;> simp

/-- Witness for C6: a reply whose register-address bytes do not match
register index 0 (address `0x0001`) is rejected with
`protocolMismatch`. -/
theorem C6_protocol_mismatch_witness :
    (([0x3f, 0x10, 0xff, 0xff] : List Nat).getD 2 0 ≠ (kregnums.getD 0 0) >>> 8) ∧
    kamDecode 0 [0x3f, 0x10, 0xff, 0xff] = .error .protocolMismatch :=
  ⟨by decide,
   (C6_protocol_mismatch 0 [0x3f, 0x10, 0xff, 0xff]
     (Or.inr (Or.inr (Or.inl (by decide))))).1⟩

set_option maxRecDepth 10000 in
/-- C9: the claim describes the intended bounds-checked behaviour, but
the code has no bounds check: on a trace that delivers 51 payload bytes
and the end marker within the deadline, the accumulation loop of
`kamReceive` completes normally with a 52-byte buffer, exceeding the
50-byte `rxdata` stack array — i.e. the C code has already written past
the buffer instead of failing with a distinct overflow error. -/
theorem C9_overflow_unchecked :
    kamReceiveLoop 0 (List.replicate 51 ((0 : Nat), some (0x41 : Nat)) ++ [(0, some 0x0d)]) [] =
      .complete (List.replicate 51 (0x41 : Nat) ++ [0x0d]) ∧
    rxBufferCapacity < (List.replicate 51 (0x41 : Nat) ++ [0x0d]).length := by
  constructor
  · decide
  · decide

/-- C7: against a poll trace that never delivers the end marker `0x0d`,
the receive loop fails with `timeout` exactly when some poll happens
with `millis() - starttime > KAMTIMEOUT` (the configured deadline,
1000 ms): it times out once the elapsed time exceeds the deadline, and
never before. -/
theorem C7_receive_timeout (start : Nat) (events : List (Nat × Option Nat)) (buf : List Nat)
    (hnoend : ∀ e ∈ events, e.2 ≠ some 0x0d) :
    (kamReceiveLoop start events buf = .timeout ↔
      ∃ e ∈ events, e.1 - start > KAMTIMEOUT) := by
  induction events generalizing buf with
  | nil => simp [kamReceiveLoop]
  | cons e rest ih =>
    obtain ⟨now, mb⟩ := e
    have hrest : ∀ e ∈ rest, e.2 ≠ some 0x0d :=
      fun e he => hnoend e (List.mem_cons_of_mem _ he)
    simp only [kamReceiveLoop]
    split
    · rename_i ht
      constructor
      · intro _
        exact ⟨(now, mb), List.mem_cons_self _ _, ht⟩
      · intro _
        rfl
    · rename_i ht
      have hext : (∃ e ∈ rest, e.1 - start > KAMTIMEOUT) ↔
          (∃ e ∈ (now, mb) :: rest, e.1 - start > KAMTIMEOUT) := by
        constructor
        · rintro ⟨e, he, hgt⟩
          exact ⟨e, List.mem_cons_of_mem _ he, hgt⟩
        · rintro ⟨e, he, hgt⟩
          rcases List.mem_cons.mp he with heq | he'
          · rw [heq] at hgt
            exact absurd hgt ht
          · exact ⟨e, he', hgt⟩
      cases mb with
      | none =>
        dsimp only
        exact (ih buf hrest).trans hext
      | some r =>
        dsimp only
        by_cases h40 : r = 0x40
        · rw [if_pos h40]
          exact (ih buf hrest).trans hext
        · have h0d : r ≠ 0x0d := fun hr =>
            hnoend (now, some r) (List.mem_cons_self _ _) (by rw [hr])
          rw [if_neg h40, if_neg h0d]
          exact (ih (buf ++ [r]) hrest).trans hext

/-- Witness for C7: with polls at 0 ms and 1500 ms and no end marker,
the loop times out; the second poll is past the 1000 ms deadline. -/
theorem C7_receive_timeout_witness :
    (∀ e ∈ ([(0, some 0x41), (1500, none)] : List (Nat × Option Nat)), e.2 ≠ some 0x0d) ∧
    kamReceiveLoop 0 [(0, some 0x41), (1500, none)] [] = .timeout :=
  ⟨by decide, (C7_receive_timeout 0 [(0, some 0x41), (1500, none)] [] (by decide)).mpr
    ⟨(1500, none), by decide, by decide⟩⟩

/-- C8: for every reply passing the header and register checks, the
decoder scales the (signed 32-bit) mantissa by ten to the power given by
bits 0–5 of the exponent-and-sign byte (`msg[6]` in the code), negating
the exponent when bit 6 (`0x40`) is set and negating the final result
when bit 7 (`0x80`) is set. -/
theorem C8_exponent_sign (kreg : Nat) (msg : List Nat)
    (h0 : msg.getD 0 0 = 0x3f) (h1 : msg.getD 1 0 = 0x10)
    (h2 : msg.getD 2 0 = (kregnums.getD kreg 0) >>> 8)
    (h3 : msg.getD 3 0 = (kregnums.getD kreg 0) &&& 0xff) :
    kamDecode kreg msg =
      .ok ((if msg.getD 6 0 &&& 0x80 ≠ 0 then (-1 : ℚ) else 1) *
        ((toSigned32 (kamMantissa msg) : ℚ) *
          (10 : ℚ) ^ (if msg.getD 6 0 &&& 0x40 ≠ 0
            then -((msg.getD 6 0 &&& 0x3f : Nat) : ℤ)
            else ((msg.getD 6 0 &&& 0x3f : Nat) : ℤ)))) := by
  simp only [kamDecode, h0, h1, h2, h3, ne_eq, not_true_eq_false, or_self, if_false,
    pow10_eq_zpow]
  split_ifs <;> simp

/-- Witness for C8: exponent byte `0xC2` (bits `0x80` and `0x40` set,
magnitude 2) with mantissa 100 decodes to `100 × 10⁻² = 1` negated,
i.e. `-1.0`. -/
theorem C8_exponent_sign_witness :
    (([0x3f, 0x10, 0x00, 0x01, 0x00, 0x01, 0xC2, 100] : List Nat).getD 0 0 = 0x3f ∧
     ([0x3f, 0x10, 0x00, 0x01, 0x00, 0x01, 0xC2, 100] : List Nat).getD 1 0 = 0x10 ∧
     ([0x3f, 0x10, 0x00, 0x01, 0x00, 0x01, 0xC2, 100] : List Nat).getD 2 0 =
       (kregnums.getD 0 0) >>> 8 ∧
     ([0x3f, 0x10, 0x00, 0x01, 0x00, 0x01, 0xC2, 100] : List Nat).getD 3 0 =
       (kregnums.getD 0 0) &&& 0xff) ∧
    kamDecode 0 [0x3f, 0x10, 0x00, 0x01, 0x00, 0x01, 0xC2, 100] = .ok (-1 : ℚ) := by
  refine ⟨by decide, ?_⟩
  have h := C8_exponent_sign 0 [0x3f, 0x10, 0x00, 0x01, 0x00, 0x01, 0xC2, 100]
    (by decide) (by decide) (by decide) (by decide)
  rw [h]
  have hm : kamMantissa [0x3f, 0x10, 0x00, 0x01, 0x00, 0x01, 0xC2, 100] = 100 := by decide
  rw [hm]
  norm_num [toSigned32, show (0xC2 &&& 0x3f : Nat) = 2 from by decide,
    show (0xC2 &&& 0x40 : Nat) = 0x40 from by decide,
    show (0xC2 &&& 0x80 : Nat) = 0x80 from by decide]
